import Mathlib

/-!
Shallow embedding of `HYPERBUSFBlockDevice.cpp` (GreenWaves-Technologies
hyperbusf-driver), a block-device driver for a HYPERBUS-attached NOR flash.

The transport (`HYPERBUS _hyperbus`) is modelled as a trace of operations
(`HBOp`): single-register writes, single-register reads, block writes and
block reads.  Every transport call carries the constant mode
`uHYPERBUS_Mem_Access`, so the mode is omitted from the trace.  The values
returned by the status-register reads in `_sync` are the only transport
inputs the driver ever branches on; they are supplied by an oracle
`statuses : Nat → Nat` (poll index to raw read value) for a single `_sync`
call, and `statuses : Nat → Nat → Nat` (chunk/sector index, then poll
index) for a whole `program`/`erase` call.

`bd_addr_t`/`bd_size_t` are `uint64_t` in the source.  Every driver entry
point asserts validity (`MBED_ASSERT(is_valid_*)`, mbed base-class checks:
alignment and `addr + size <= size()` with `size() = 64 MiB`) before its
loop, and on the asserted domain no 64-bit arithmetic in the loops can
overflow and the `uint32_t chunk` cast is exact (`chunk <= 512`), so the
embedding uses plain `Nat` arithmetic; an assertion failure (abort) is
modelled as the result `none`.  The loops are written with an explicit
fuel argument; the fuel passed by the top-level wrappers is proved
sufficient, which is the termination content of the `while` loops.
-/

namespace HYPERBUSF

/-- `#define HYPERBUS_SIZE 64*1024*1024` (line 19). -/
def HYPERBUS_SIZE : Nat := 64 * 1024 * 1024

/-- `#define HYPERBUS_FILE_SYSTEM_ADDR_OFFSET 256*1024` (line 44). -/
def HYPERBUS_FILE_SYSTEM_ADDR_OFFSET : Nat := 256 * 1024

/-- `#define HYPERBUS_READ_SIZE 2` (line 47). -/
def HYPERBUS_READ_SIZE : Nat := 2

/-- `#define HYPERBUS_PROG_SIZE 2` (line 48). -/
def HYPERBUS_PROG_SIZE : Nat := 2

/-- `#define HYPERBUS_SE_SIZE 256*1024` (line 49). -/
def HYPERBUS_SE_SIZE : Nat := 256 * 1024

/-- `#define HYPERBUS_TIMEOUT 10000` (line 50). -/
def HYPERBUS_TIMEOUT : Nat := 10000

/-- `#define HYPERBUS_DEVICE_READY 0x80` (line 53). -/
def HYPERBUS_DEVICE_READY : Nat := 0x80

/-- Modelled from the spec: `BD_ERROR_DEVICE_ERROR` is the negative error
code of the mbed block-device contract (`BlockDevice.h`, not part of this
repository); "a signed integer result where zero means success and a
negative value is an error code; `BD_ERROR_DEVICE_ERROR` signals a timeout
or hardware fault".  The concrete value `-4001` is mbed's; the development
only relies on it being nonzero. -/
def BD_ERROR_DEVICE_ERROR : Int := -4001

/-- One transport operation issued to the `HYPERBUS` collaborator. -/
inductive HBOp where
  | write (addr value : Nat)
  | readReg (addr : Nat)
  | writeBlock (addr buf len : Nat)
  | readBlock (addr len : Nat)
deriving DecidableEq, Repr

/-- Is this operation a status-register read (`_hyperbus.read`)? -/
def isPoll : HBOp → Bool
  | HBOp.readReg _ => true
  | _ => false

/-- Is this operation the status-request write of `0x70` (line 96)? -/
def isCmd70 : HBOp → Bool
  | HBOp.write a v => a == 0x555 <<< 1 && v == 0x70
  | _ => false

/-- Is this operation a sector-erase command write of `0x30` (line 186)? -/
def isEraseCmd : HBOp → Bool
  | HBOp.write _ v => v == 0x30
  | _ => false

/-- Projection of a transport operation to its block-write data, if any. -/
def wbOf : HBOp → Option (Nat × Nat × Nat)
  | HBOp.writeBlock a b l => some (a, b, l)
  | _ => none

/-- Projection to the physical target address of a data-transfer or
sector-command operation (block write, block read, or `0x30` write). -/
def dataTarget : HBOp → Option Nat
  | HBOp.writeBlock a _ _ => some a
  | HBOp.readBlock a _ => some a
  | HBOp.write a v => if v = 0x30 then some a else none
  | HBOp.readReg _ => none

/-- Is this operation a single-register command write (issuing no read
and transferring no data)? -/
def isRegWrite : HBOp → Bool
  | HBOp.write _ _ => true
  | _ => false

/-- Number of status-register reads in a trace (one per polling iteration). -/
def polls (t : List HBOp) : Nat := t.countP isPoll

/-- The block writes of a trace, as `(address, buffer, length)` triples. -/
def writeBlocks (t : List HBOp) : List (Nat × Nat × Nat) := t.filterMap wbOf

/-- The physical data-transfer / sector-command target addresses of a trace. -/
def dataTargets (t : List HBOp) : List Nat := t.filterMap dataTarget

/-- The device-ready test of `_sync` (lines 98-101): the raw read value is
stored into a `uint16_t status` and then `status & HYPERBUS_DEVICE_READY`
is tested for nonzero. -/
def ready (v : Nat) : Prop := v % 65536 &&& HYPERBUS_DEVICE_READY ≠ 0

instance (v : Nat) : Decidable (ready v) :=
  inferInstanceAs (Decidable (v % 65536 &&& HYPERBUS_DEVICE_READY ≠ 0))

/-- `HYPERBUSFBlockDevice::_sync` (lines 92-109), polling from poll index
`i` with `fuel` iterations left.  Each iteration writes `0x70` to
`0x555 << 1`, reads the status register at `0`, and returns `0` if the
ready bit is set; fuel exhaustion is the `return BD_ERROR_DEVICE_ERROR`
after the loop.  (`wait_ms(1)` is a platform delay, not a transport
operation, so it leaves no trace.) -/
def syncFrom (statuses : Nat → Nat) : Nat → Nat → Int × List HBOp
  | _, 0 => (BD_ERROR_DEVICE_ERROR, [])
  | i, fuel+1 =>
    if ready (statuses i) then
      (0, [HBOp.write (0x555 <<< 1) 0x70, HBOp.readReg 0])
    else
      let rest := syncFrom statuses (i+1) fuel
      (rest.1, [HBOp.write (0x555 <<< 1) 0x70, HBOp.readReg 0] ++ rest.2)

/-- `_sync()`: `for (int i = 0; i < HYPERBUS_TIMEOUT; i++)` (line 94). -/
def sync (statuses : Nat → Nat) : Int × List HBOp :=
  syncFrom statuses 0 HYPERBUS_TIMEOUT

/-- A status oracle on which a single `_sync` call succeeds: some poll
within the timeout budget observes the ready bit. -/
def syncOk (statuses : Nat → Nat) : Prop :=
  ∃ i, i < HYPERBUS_TIMEOUT ∧ ready (statuses i)

/-- `HYPERBUSFBlockDevice::_wren` (lines 111-114): returns 0, no transport
operation. -/
def wren : Int × List HBOp := (0, [])

/-- Modelled from the spec: `is_valid_read` of the mbed `BlockDevice` base
class (not part of this repository), the assertion at line 119.  Spec:
"[address, address+size) lies within the advertised device capacity and
both address and size are multiples of the read granularity (2 bytes)". -/
def is_valid_read (addr size : Nat) : Prop :=
  addr % HYPERBUS_READ_SIZE = 0 ∧ size % HYPERBUS_READ_SIZE = 0 ∧
    addr + size ≤ HYPERBUS_SIZE

instance (addr size : Nat) : Decidable (is_valid_read addr size) :=
  inferInstanceAs (Decidable (_ ∧ _ ∧ _))

/-- Modelled from the spec: `is_valid_program` of the mbed `BlockDevice`
base class (not part of this repository), the assertion at line 129.
Spec: "address and size are multiples of program granularity (2 bytes)";
"out-of-range or misaligned address/size ... asserted at the call
boundary". -/
def is_valid_program (addr size : Nat) : Prop :=
  addr % HYPERBUS_PROG_SIZE = 0 ∧ size % HYPERBUS_PROG_SIZE = 0 ∧
    addr + size ≤ HYPERBUS_SIZE

instance (addr size : Nat) : Decidable (is_valid_program addr size) :=
  inferInstanceAs (Decidable (_ ∧ _ ∧ _))

/-- Modelled from the spec: `is_valid_erase` of the mbed `BlockDevice`
base class (not part of this repository), the assertion at line 167.
Spec: "address and size are multiples of erase-sector size (256 KiB)". -/
def is_valid_erase (addr size : Nat) : Prop :=
  addr % HYPERBUS_SE_SIZE = 0 ∧ size % HYPERBUS_SE_SIZE = 0 ∧
    addr + size ≤ HYPERBUS_SIZE

instance (addr size : Nat) : Decidable (is_valid_erase addr size) :=
  inferInstanceAs (Decidable (_ ∧ _ ∧ _))

/-- `HYPERBUSFBlockDevice::init` (lines 76-85): the four-write VCR
configuration sequence, then `return 0` unconditionally.  The writes
return nothing the driver inspects, so the result does not depend on any
transport behaviour. -/
def init : Int × List HBOp :=
  (0, [HBOp.write (0x555 <<< 1) 0xAA, HBOp.write (0x2AA <<< 1) 0x55,
       HBOp.write (0x555 <<< 1) 0x38, HBOp.write (0 <<< 1) 0x8e0b])

/-- `HYPERBUSFBlockDevice::deinit` (lines 87-90): `return 0`, nothing else. -/
def deinit : Int × List HBOp := (0, [])

/-- `HYPERBUSFBlockDevice::read` (lines 116-124): assert validity, one
block read at the offset-adjusted address, `return 0`.  `none` models the
`MBED_ASSERT` abort. -/
def read (addr size : Nat) : Option (Int × List HBOp) :=
  if is_valid_read addr size then
    some (0, [HBOp.readBlock (addr + HYPERBUS_FILE_SYSTEM_ADDR_OFFSET) size])
  else none

/-- The body of `HYPERBUSFBlockDevice::program`'s `while (size > 0)` loop
(lines 131-158), with chunk counter `k` (selecting the status oracle of
the `k`-th `_sync` call), the buffer pointer as an offset `buf`, and an
explicit fuel.  Per iteration: `_wren()` with its (vacuous) early return;
`off = addr % 512`; `chunk = (off + size < 512) ? size : (512-off)` (the
`uint32_t` cast is exact since either `chunk = size < 512` or
`chunk <= 512`); the three command-sequence writes; the block write of the
chunk; advance `buffer`, `addr`, `size` by `chunk`; `_sync()` with early
return of its error. -/
def programLoopF (statuses : Nat → Nat → Nat) :
    Nat → Nat → Nat → Nat → Nat → Option (Int × List HBOp)
  | 0, _, _, _, size => if size = 0 then some (0, []) else none
  | fuel+1, k, buf, addr, size =>
    if size = 0 then some (0, []) else
    if wren.1 ≠ 0 then some (wren.1, wren.2) else
    let off := addr % 512
    let chunk := if off + size < 512 then size else 512 - off
    let cmds : List HBOp :=
      [HBOp.write (0x555 <<< 1) 0xAA, HBOp.write (0x2AA <<< 1) 0x55,
       HBOp.write (0x555 <<< 1) 0xA0,
       HBOp.writeBlock (addr + HYPERBUS_FILE_SYSTEM_ADDR_OFFSET) buf chunk]
    let s := sync (statuses k)
    if s.1 ≠ 0 then some (s.1, cmds ++ s.2)
    else (programLoopF statuses fuel (k+1) (buf + chunk) (addr + chunk) (size - chunk)).map
      (fun r => (r.1, cmds ++ s.2 ++ r.2))

/-- `HYPERBUSFBlockDevice::program` (lines 126-162): assert validity
(`none` models the `MBED_ASSERT` abort), then run the loop.  The fuel
`size` is sufficient because every iteration removes a chunk of at least
one byte (`program_terminates_C9`). -/
def program (statuses : Nat → Nat → Nat) (buf addr size : Nat) :
    Option (Int × List HBOp) :=
  if is_valid_program addr size then programLoopF statuses size 0 buf addr size
  else none

/-- The body of `HYPERBUSFBlockDevice::erase`'s `while (size > 0)` loop
(lines 169-195), with sector counter `k` and explicit fuel.  Per
iteration: `_wren()` with its (vacuous) early return;
`chunk = HYPERBUS_SE_SIZE`; the five unlock/command writes; the `0x30`
erase-command write at the offset-adjusted sector address; advance `addr`
by `chunk`, decrement `size` by `chunk`; `_sync()` with early return of
its error.  (`size -= chunk` is `uint64_t` subtraction in the source; on
the asserted domain `size` is always a multiple of the sector size, so it
never underflows and agrees with `Nat` subtraction.  Fuel exhaustion with
`size > 0`, i.e. `none`, corresponds to the unasserted domain where the
C++ loop never terminates.) -/
def eraseLoopF (statuses : Nat → Nat → Nat) :
    Nat → Nat → Nat → Nat → Option (Int × List HBOp)
  | 0, _, _, size => if size = 0 then some (0, []) else none
  | fuel+1, k, addr, size =>
    if size = 0 then some (0, []) else
    if wren.1 ≠ 0 then some (wren.1, wren.2) else
    let chunk := HYPERBUS_SE_SIZE
    let cmds : List HBOp :=
      [HBOp.write (0x555 <<< 1) 0xAA, HBOp.write (0x2AA <<< 1) 0x55,
       HBOp.write (0x555 <<< 1) 0x80,
       HBOp.write (0x555 <<< 1) 0xAA, HBOp.write (0x2AA <<< 1) 0x55,
       HBOp.write (addr + HYPERBUS_FILE_SYSTEM_ADDR_OFFSET) 0x30]
    let s := sync (statuses k)
    if s.1 ≠ 0 then some (s.1, cmds ++ s.2)
    else (eraseLoopF statuses fuel (k+1) (addr + chunk) (size - chunk)).map
      (fun r => (r.1, cmds ++ s.2 ++ r.2))

/-- `HYPERBUSFBlockDevice::erase` (lines 164-198): assert validity (`none`
models the `MBED_ASSERT` abort), then run the loop.  The fuel
`size / HYPERBUS_SE_SIZE` is the exact iteration count on the asserted
domain (`program_terminates_C9`). -/
def erase (statuses : Nat → Nat → Nat) (addr size : Nat) :
    Option (Int × List HBOp) :=
  if is_valid_erase addr size then
    eraseLoopF statuses (size / HYPERBUS_SE_SIZE) 0 addr size
  else none

/-- `HYPERBUSFBlockDevice::get_read_size` (lines 200-203). -/
def get_read_size : Nat := HYPERBUS_READ_SIZE

/-- `HYPERBUSFBlockDevice::get_program_size` (lines 205-208). -/
def get_program_size : Nat := HYPERBUS_PROG_SIZE

/-- `HYPERBUSFBlockDevice::get_erase_size` (lines 210-213). -/
def get_erase_size : Nat := HYPERBUS_SE_SIZE

/-- `HYPERBUSFBlockDevice::size` (lines 215-218): returns `_size`, set to
`HYPERBUS_SIZE` by the constructor (line 63). -/
def size : Nat := HYPERBUS_SIZE

/-- `HYPERBUSFBlockDevice::get_erase_value` (lines 220-223). -/
def get_erase_value : Nat := 0xFF

/-- Specification-side chunk list for `program`, written with the spec's
formula `chunk = min(size, 512 − (address mod 512))`: the `(buffer,
address, chunk)` triple of each loop iteration, each of buffer, address
and size advancing by the chunk.  The fuel (instantiated with the byte
count in `progChunks`) dominates the iteration count since every chunk is
at least one byte. -/
def progChunksF : Nat → Nat → Nat → Nat → List (Nat × Nat × Nat)
  | 0, _, _, _ => []
  | fuel+1, buf, addr, size =>
    if size = 0 then [] else
    let chunk := min size (512 - addr % 512)
    (buf, addr, chunk) :: progChunksF fuel (buf + chunk) (addr + chunk) (size - chunk)

/-- The per-iteration `(buffer, address, chunk)` triples of
`program(buffer, addr, size)`. -/
def progChunks (buf addr size : Nat) : List (Nat × Nat × Nat) :=
  progChunksF size buf addr size

/-- The block write a program-loop iteration issues for a chunk triple:
`write_block(addr + HYPERBUS_FILE_SYSTEM_ADDR_OFFSET, buffer, chunk)`. -/
def progWB (c : Nat × Nat × Nat) : Nat × Nat × Nat :=
  (c.2.1 + HYPERBUS_FILE_SYSTEM_ADDR_OFFSET, c.1, c.2.2)

/-- The physical data-transfer target of a chunk triple. -/
def progDT (c : Nat × Nat × Nat) : Nat :=
  c.2.1 + HYPERBUS_FILE_SYSTEM_ADDR_OFFSET

/-- Specification-side sector list for `erase`: the logical sector
addresses of `n` consecutive erase-loop iterations starting at `addr`,
the address advancing by one 256 KiB sector per iteration. -/
def eraseSectors (addr : Nat) : Nat → List Nat
  | 0 => []
  | n+1 => addr :: eraseSectors (addr + HYPERBUS_SE_SIZE) n

/-- The physical sector-command target of a logical sector address. -/
def secDT (a : Nat) : Nat := a + HYPERBUS_FILE_SYSTEM_ADDR_OFFSET

/-- Specification-side full trace of a successful `erase` over `n`
sectors starting at logical address `addr`, with sector counter `k`: per
sector, the five fixed unlock/command writes, the `0x30` erase-command
write at the offset-adjusted sector address, then the polling trace of
that sector's `_sync` call. -/
def eraseTraceG (statuses : Nat → Nat → Nat) : Nat → Nat → Nat → List HBOp
  | _, _, 0 => []
  | k, addr, n+1 =>
    [HBOp.write (0x555 <<< 1) 0xAA, HBOp.write (0x2AA <<< 1) 0x55,
     HBOp.write (0x555 <<< 1) 0x80,
     HBOp.write (0x555 <<< 1) 0xAA, HBOp.write (0x2AA <<< 1) 0x55,
     HBOp.write (addr + HYPERBUS_FILE_SYSTEM_ADDR_OFFSET) 0x30]
    ++ (sync (statuses k)).2
    ++ eraseTraceG statuses (k+1) (addr + HYPERBUS_SE_SIZE) n

/-- The source's chunk computation in the program loop (lines 139-140):
`off = addr % 512; chunk = (off + size < 512) ? size : (512 - off)`. -/
def progChunkSrc (addr size : Nat) : Nat :=
  if addr % 512 + size < 512 then size else 512 - addr % 512

/-- The four transport writes of one program-loop iteration: the three
command-sequence register writes (lines 143-145) and the block write of
the chunk (line 148). -/
def progCmds (buf addr size : Nat) : List HBOp :=
  [HBOp.write (0x555 <<< 1) 0xAA, HBOp.write (0x2AA <<< 1) 0x55,
   HBOp.write (0x555 <<< 1) 0xA0,
   HBOp.writeBlock (addr + HYPERBUS_FILE_SYSTEM_ADDR_OFFSET) buf (progChunkSrc addr size)]

/-- The six transport writes of one erase-loop iteration: the five
unlock/command register writes (lines 180-184) and the `0x30`
erase-command write at the offset-adjusted sector address (line 186). -/
def eraseCmds (addr : Nat) : List HBOp :=
  [HBOp.write (0x555 <<< 1) 0xAA, HBOp.write (0x2AA <<< 1) 0x55,
   HBOp.write (0x555 <<< 1) 0x80,
   HBOp.write (0x555 <<< 1) 0xAA, HBOp.write (0x2AA <<< 1) 0x55,
   HBOp.write (addr + HYPERBUS_FILE_SYSTEM_ADDR_OFFSET) 0x30]

theorem polls_append (a b : List HBOp) : polls (a ++ b) = polls a + polls b := by
  simp [polls, List.countP_append]

theorem writeBlocks_append (a b : List HBOp) :
    writeBlocks (a ++ b) = writeBlocks a ++ writeBlocks b := by
  simp [writeBlocks]

theorem dataTargets_append (a b : List HBOp) :
    dataTargets (a ++ b) = dataTargets a ++ dataTargets b := by
  simp [dataTargets]

theorem syncFrom_polls_le (s : Nat → Nat) :
    ∀ fuel i, polls (syncFrom s i fuel).2 ≤ fuel := by
  intro fuel
  induction fuel with
  | zero => intro i; simp [syncFrom, polls]
  | succ fuel ih =>
    intro i
    by_cases h : ready (s i)
    · simp [syncFrom, h, polls, isPoll]
    · have hrec := ih (i + 1)
      simp only [syncFrom, h, if_neg, ite_false, eq_self_iff_true]
      rw [polls_append]
      have h2 : polls [HBOp.write (0x555 <<< 1) 0x70, HBOp.readReg 0] = 1 := by
        simp [polls, isPoll]
      omega

theorem syncFrom_cmd70 (s : Nat → Nat) :
    ∀ fuel i, (syncFrom s i fuel).2.countP isCmd70 = polls (syncFrom s i fuel).2 := by
  intro fuel
  induction fuel with
  | zero => intro i; simp [syncFrom, polls]
  | succ fuel ih =>
    intro i
    by_cases h : ready (s i)
    · simp [syncFrom, h, polls, isPoll, isCmd70]
    · have hrec := ih (i + 1)
      simp only [syncFrom, h, ite_false]
      rw [polls_append, List.countP_append]
      have h2 : polls [HBOp.write (0x555 <<< 1) 0x70, HBOp.readReg 0] = 1 := by
        simp [polls, isPoll]
      have h3 : ([HBOp.write (0x555 <<< 1) 0x70, HBOp.readReg 0]).countP isCmd70 = 1 := by
        simp [isCmd70]
      omega

theorem syncFrom_found (s : Nat → Nat) :
    ∀ fuel i d, d < fuel → ready (s (i + d)) → (∀ e, e < d → ¬ ready (s (i + e))) →
      (syncFrom s i fuel).1 = 0 ∧ polls (syncFrom s i fuel).2 = d + 1 := by
  intro fuel
  induction fuel with
  | zero => intro i d hd _ _; exact absurd hd (Nat.not_lt_zero d)
  | succ fuel ih =>
    intro i d hd hr hmin
    cases d with
    | zero =>
      have h0 : ready (s i) := by simpa using hr
      refine ⟨by simp [syncFrom, h0], by simp [syncFrom, h0, polls, isPoll]⟩
    | succ e =>
      have hni : ¬ ready (s i) := by simpa using hmin 0 (Nat.succ_pos e)
      have hre : ready (s (i + 1 + e)) := by
        have hIdx : i + 1 + e = i + (e + 1) := by omega
        rw [hIdx]; exact hr
      have hmine : ∀ e', e' < e → ¬ ready (s (i + 1 + e')) := by
        intro e' he'
        have hIdx : i + 1 + e' = i + (e' + 1) := by omega
        rw [hIdx]; exact hmin (e' + 1) (by omega)
      have hrec := ih (i + 1) e (by omega) hre hmine
      constructor
      · simp only [syncFrom, hni, ite_false]
        exact hrec.1
      · simp only [syncFrom, hni, ite_false]
        rw [polls_append]
        have h2 : polls [HBOp.write (0x555 <<< 1) 0x70, HBOp.readReg 0] = 1 := by
          simp [polls, isPoll]
        omega

theorem syncFrom_fail (s : Nat → Nat) :
    ∀ fuel i, (∀ d, d < fuel → ¬ ready (s (i + d))) →
      (syncFrom s i fuel).1 = BD_ERROR_DEVICE_ERROR ∧
        polls (syncFrom s i fuel).2 = fuel := by
  intro fuel
  induction fuel with
  | zero => intro i _; simp [syncFrom, polls]
  | succ fuel ih =>
    intro i hfail
    have hni : ¬ ready (s i) := by simpa using hfail 0 (Nat.succ_pos fuel)
    have hrec := ih (i + 1) (by
      intro d hd
      have hIdx : i + 1 + d = i + (d + 1) := by omega
      rw [hIdx]; exact hfail (d + 1) (by omega))
    constructor
    · simp only [syncFrom, hni, ite_false]
      exact hrec.1
    · simp only [syncFrom, hni, ite_false]
      rw [polls_append]
      have h2 : polls [HBOp.write (0x555 <<< 1) 0x70, HBOp.readReg 0] = 1 := by
        simp [polls, isPoll]
      omega

theorem syncFrom_ok (s : Nat → Nat) :
    ∀ fuel i, (∃ d, d < fuel ∧ ready (s (i + d))) → (syncFrom s i fuel).1 = 0 := by
  intro fuel
  induction fuel with
  | zero => rintro i ⟨d, hd, _⟩; exact absurd hd (Nat.not_lt_zero d)
  | succ fuel ih =>
    rintro i ⟨d, hd, hr⟩
    by_cases h : ready (s i)
    · simp [syncFrom, h]
    · cases d with
      | zero => exact absurd (by simpa using hr) h
      | succ e =>
        have hre : ready (s (i + 1 + e)) := by
          have hIdx : i + 1 + e = i + (e + 1) := by omega
          rw [hIdx]; exact hr
        have hrec := ih (i + 1) ⟨e, by omega, hre⟩
        simp only [syncFrom, h, ite_false]
        exact hrec

theorem syncFrom_res (s : Nat → Nat) :
    ∀ fuel i, (syncFrom s i fuel).1 = 0 ∨
      (syncFrom s i fuel).1 = BD_ERROR_DEVICE_ERROR := by
  intro fuel
  induction fuel with
  | zero => intro i; simp [syncFrom]
  | succ fuel ih =>
    intro i
    by_cases h : ready (s i)
    · simp [syncFrom, h]
    · simp only [syncFrom, h, ite_false]
      exact ih (i + 1)

theorem syncFrom_wb (s : Nat → Nat) :
    ∀ fuel i, writeBlocks (syncFrom s i fuel).2 = [] := by
  intro fuel
  induction fuel with
  | zero => intro i; simp [syncFrom, writeBlocks]
  | succ fuel ih =>
    intro i
    by_cases h : ready (s i)
    · simp [syncFrom, h, writeBlocks, wbOf]
    · simp only [syncFrom, h, ite_false]
      rw [writeBlocks_append, ih (i + 1)]
      simp [writeBlocks, wbOf]

theorem syncFrom_dt (s : Nat → Nat) :
    ∀ fuel i, dataTargets (syncFrom s i fuel).2 = [] := by
  intro fuel
  induction fuel with
  | zero => intro i; simp [syncFrom, dataTargets]
  | succ fuel ih =>
    intro i
    by_cases h : ready (s i)
    · simp [syncFrom, h, dataTargets, dataTarget]
    · simp only [syncFrom, h, ite_false]
      rw [dataTargets_append, ih (i + 1)]
      simp [dataTargets, dataTarget]

theorem syncFrom_ec (s : Nat → Nat) :
    ∀ fuel i, (syncFrom s i fuel).2.countP isEraseCmd = 0 := by
  intro fuel
  induction fuel with
  | zero => intro i; simp [syncFrom]
  | succ fuel ih =>
    intro i
    by_cases h : ready (s i)
    · simp [syncFrom, h, isEraseCmd]
    · simp only [syncFrom, h, ite_false]
      simp [List.countP_append, isEraseCmd, ih (i + 1)]

theorem sync_of_syncOk (s : Nat → Nat) (h : syncOk s) : (sync s).1 = 0 := by
  obtain ⟨i, hi, hr⟩ := h
  exact syncFrom_ok s HYPERBUS_TIMEOUT 0 ⟨i, hi, by simpa using hr⟩

theorem sync_of_not_syncOk (s : Nat → Nat) (h : ¬ syncOk s) :
    (sync s).1 = BD_ERROR_DEVICE_ERROR := by
  refine (syncFrom_fail s HYPERBUS_TIMEOUT 0 ?_).1
  intro d hd hr
  exact h ⟨d, hd, by simpa using hr⟩

/-- C4: for every sequence of status-register values returned by the
transport, `_sync` writes command byte `0x70` before each of its 16-bit
status reads (one `0x70` write per poll), returns `0` at the first polling
iteration whose status word has bit 7 (mask `0x80`) set, returns
`BD_ERROR_DEVICE_ERROR` if that bit is set in none of the
`HYPERBUS_TIMEOUT = 10000` polling iterations, and never polls more than
10000 times. -/
theorem sync_polls_C4 (s : Nat → Nat) :
    polls (sync s).2 ≤ 10000 ∧
    (sync s).2.countP isCmd70 = polls (sync s).2 ∧
    (∀ j, j < 10000 → ready (s j) → (∀ e, e < j → ¬ ready (s e)) →
      (sync s).1 = 0 ∧ polls (sync s).2 = j + 1) ∧
    ((∀ j, j < 10000 → ¬ ready (s j)) →
      (sync s).1 = BD_ERROR_DEVICE_ERROR ∧ polls (sync s).2 = 10000) := by
  refine ⟨syncFrom_polls_le s HYPERBUS_TIMEOUT 0,
          syncFrom_cmd70 s HYPERBUS_TIMEOUT 0, ?_, ?_⟩
  · intro j hj hr hmin
    exact syncFrom_found s HYPERBUS_TIMEOUT 0 j hj (by simpa using hr)
      (fun e he => by simpa using hmin e he)
  · intro hfail
    exact syncFrom_fail s HYPERBUS_TIMEOUT 0 (fun d hd => by simpa using hfail d hd)

/-- Witness for C4: on the always-ready status oracle the very first poll
succeeds, so `_sync` returns `0` after exactly one poll. -/
theorem sync_polls_C4_w :
    (sync (fun _ => 0x80)).1 = 0 ∧ polls (sync (fun _ => 0x80)).2 = 0 + 1 :=
  (sync_polls_C4 (fun _ => 0x80)).2.2.1 0 (by decide) (by decide)
    (fun e he => absurd he (Nat.not_lt_zero e))

/-- C6: the geometry accessors return the fixed constants — read size 2,
program size 2, erase size 256 KiB, erase value `0xFF`, total size 64 MiB
— and consequently the program size divides evenly by the read size and
the erase size by the program size. -/
theorem geometry_C6 :
    get_read_size = 2 ∧ get_program_size = 2 ∧
    get_erase_size = 256 * 1024 ∧ get_erase_value = 0xFF ∧
    size = 64 * 1024 * 1024 ∧
    get_program_size % get_read_size = 0 ∧
    get_erase_size % get_program_size = 0 := by
  decide

/-- C7: `init` returns `0` unconditionally (its result depends on no
transport behaviour), issuing exactly the four configuration-register
writes and performing no read of any kind (no verification read-back);
`deinit` performs no transport operation at all and returns `0`. -/
theorem init_deinit_C7 :
    init.1 = 0 ∧ init.2.length = 4 ∧
    init.2.all isRegWrite = true ∧
    polls init.2 = 0 ∧ dataTargets init.2 = [] ∧
    deinit = (0, []) := by
  refine ⟨rfl, rfl, by decide, by decide, by decide, rfl⟩

/-- C8: for every `read` call satisfying the validity precondition, the
only transport operation is the single block read at the offset-adjusted
address — no register/command writes, no status polling — and the result
is `0`. -/
theorem read_direct_C8 (addr size : Nat) (h : is_valid_read addr size) :
    read addr size =
      some (0, [HBOp.readBlock (addr + HYPERBUS_FILE_SYSTEM_ADDR_OFFSET) size]) := by
  simp [read, h]

/-- Witness for C8 at `addr = 0`, `size = 2`. -/
theorem read_direct_C8_w :
    read 0 2 = some (0, [HBOp.readBlock (0 + HYPERBUS_FILE_SYSTEM_ADDR_OFFSET) 2]) :=
  read_direct_C8 0 2 (by decide)

/-- C10: `program` with `size = 0` and `erase` with `size = 0` (on the
asserted domain) perform no transport operation at all — no unlock
writes, no data writes, no status polling — and return `0`. -/
theorem zero_size_noop_C10 (statuses : Nat → Nat → Nat) (buf addr : Nat) :
    (is_valid_program addr 0 → program statuses buf addr 0 = some (0, [])) ∧
    (is_valid_erase addr 0 → erase statuses addr 0 = some (0, [])) := by
  constructor
  · intro h
    simp [program, h, programLoopF]
  · intro h
    simp [erase, h, eraseLoopF]

/-- Witness for C10 at `addr = 0`. -/
theorem zero_size_noop_C10_w :
    program (fun _ _ => 0) 0 0 0 = some (0, []) ∧
    erase (fun _ _ => 0) 0 0 = some (0, []) :=
  ⟨(zero_size_noop_C10 (fun _ _ => 0) 0 0).1 (by decide),
   (zero_size_noop_C10 (fun _ _ => 0) 0 0).2 (by decide)⟩

theorem chunk_eq_min (addr size : Nat) :
    progChunkSrc addr size = min size (512 - addr % 512) := by
  have h : addr % 512 < 512 := Nat.mod_lt addr (by norm_num)
  unfold progChunkSrc
  split <;> omega

theorem chunk_pos (addr size : Nat) (h0 : size ≠ 0) : 0 < progChunkSrc addr size := by
  have h : addr % 512 < 512 := Nat.mod_lt addr (by norm_num)
  unfold progChunkSrc
  split <;> omega

theorem chunk_le (addr size : Nat) : progChunkSrc addr size ≤ size := by
  have h : addr % 512 < 512 := Nat.mod_lt addr (by norm_num)
  unfold progChunkSrc
  split <;> omega

theorem sync_wb (s : Nat → Nat) : writeBlocks (sync s).2 = [] :=
  syncFrom_wb s HYPERBUS_TIMEOUT 0

theorem sync_dt (s : Nat → Nat) : dataTargets (sync s).2 = [] :=
  syncFrom_dt s HYPERBUS_TIMEOUT 0

theorem sync_ec (s : Nat → Nat) : (sync s).2.countP isEraseCmd = 0 :=
  syncFrom_ec s HYPERBUS_TIMEOUT 0

theorem writeBlocks_progCmds (buf addr size : Nat) :
    writeBlocks (progCmds buf addr size) =
      [(addr + HYPERBUS_FILE_SYSTEM_ADDR_OFFSET, buf, progChunkSrc addr size)] := by
  simp [progCmds, writeBlocks, wbOf]

theorem dataTargets_progCmds (buf addr size : Nat) :
    dataTargets (progCmds buf addr size) = [addr + HYPERBUS_FILE_SYSTEM_ADDR_OFFSET] := by
  norm_num [progCmds, dataTargets, dataTarget, List.filterMap_cons]

theorem dataTargets_eraseCmds (addr : Nat) :
    dataTargets (eraseCmds addr) = [addr + HYPERBUS_FILE_SYSTEM_ADDR_OFFSET] := by
  norm_num [eraseCmds, dataTargets, dataTarget, List.filterMap_cons]

theorem countP_eraseCmds (addr : Nat) : (eraseCmds addr).countP isEraseCmd = 1 := by
  simp [eraseCmds, isEraseCmd]

theorem progChunksF_succ (fuel buf addr size : Nat) (h0 : size ≠ 0) :
    progChunksF (fuel + 1) buf addr size =
      (buf, addr, progChunkSrc addr size) ::
        progChunksF fuel (buf + progChunkSrc addr size) (addr + progChunkSrc addr size)
          (size - progChunkSrc addr size) := by
  have hmin := chunk_eq_min addr size
  simp only [progChunksF, h0, ite_false]
  rw [← hmin]

theorem programLoopF_succ (statuses : Nat → Nat → Nat) (fuel k buf addr size : Nat)
    (h0 : size ≠ 0) :
    programLoopF statuses (fuel + 1) k buf addr size =
      if (sync (statuses k)).1 ≠ 0 then
        some ((sync (statuses k)).1, progCmds buf addr size ++ (sync (statuses k)).2)
      else
        (programLoopF statuses fuel (k + 1) (buf + progChunkSrc addr size)
            (addr + progChunkSrc addr size) (size - progChunkSrc addr size)).map
          (fun r => (r.1, progCmds buf addr size ++ (sync (statuses k)).2 ++ r.2)) := by
  simp only [programLoopF, h0, ite_false, wren, progCmds, progChunkSrc]
  norm_num

theorem eraseLoopF_succ (statuses : Nat → Nat → Nat) (fuel k addr size : Nat)
    (h0 : size ≠ 0) :
    eraseLoopF statuses (fuel + 1) k addr size =
      if (sync (statuses k)).1 ≠ 0 then
        some ((sync (statuses k)).1, eraseCmds addr ++ (sync (statuses k)).2)
      else
        (eraseLoopF statuses fuel (k + 1) (addr + HYPERBUS_SE_SIZE)
            (size - HYPERBUS_SE_SIZE)).map
          (fun r => (r.1, eraseCmds addr ++ (sync (statuses k)).2 ++ r.2)) := by
  simp only [eraseLoopF, h0, ite_false, wren, eraseCmds]
  norm_num

theorem programLoopF_spec (statuses : Nat → Nat → Nat) :
    ∀ fuel k buf addr size, size ≤ fuel →
      ∃ r t, programLoopF statuses fuel k buf addr size = some (r, t) ∧
        (∃ rest, (progChunksF fuel buf addr size).map progWB = writeBlocks t ++ rest) ∧
        (r = 0 → writeBlocks t = (progChunksF fuel buf addr size).map progWB) ∧
        (∃ rest, (progChunksF fuel buf addr size).map progDT = dataTargets t ++ rest) ∧
        (r = 0 → dataTargets t = (progChunksF fuel buf addr size).map progDT) ∧
        (0 < size →
          (dataTargets t).head? = some (addr + HYPERBUS_FILE_SYSTEM_ADDR_OFFSET)) := by
  intro fuel
  induction fuel with
  | zero =>
    intro k buf addr size hsz
    have h0 : size = 0 := by omega
    subst h0
    exact ⟨0, [], by simp [programLoopF], ⟨[], by simp [progChunksF, writeBlocks]⟩,
      fun _ => by simp [progChunksF, writeBlocks],
      ⟨[], by simp [progChunksF, dataTargets]⟩,
      fun _ => by simp [progChunksF, dataTargets], fun h => absurd h (by omega)⟩
  | succ fuel ih =>
    intro k buf addr size hsz
    by_cases h0 : size = 0
    · subst h0
      exact ⟨0, [], by simp [programLoopF], ⟨[], by simp [progChunksF, writeBlocks]⟩,
        fun _ => by simp [progChunksF, writeBlocks],
        ⟨[], by simp [progChunksF, dataTargets]⟩,
        fun _ => by simp [progChunksF, dataTargets], fun h => absurd h (by omega)⟩
    · have hchunks := progChunksF_succ fuel buf addr size h0
      have hunf := programLoopF_succ statuses fuel k buf addr size h0
      by_cases hs : (sync (statuses k)).1 ≠ 0
      · rw [if_pos hs] at hunf
        refine ⟨(sync (statuses k)).1, progCmds buf addr size ++ (sync (statuses k)).2,
          hunf, ?_, fun hr => absurd hr hs, ?_, fun hr => absurd hr hs, ?_⟩
        · refine ⟨(progChunksF fuel (buf + progChunkSrc addr size)
            (addr + progChunkSrc addr size) (size - progChunkSrc addr size)).map progWB, ?_⟩
          rw [hchunks, writeBlocks_append, sync_wb, writeBlocks_progCmds]
          simp [progWB]
        · refine ⟨(progChunksF fuel (buf + progChunkSrc addr size)
            (addr + progChunkSrc addr size) (size - progChunkSrc addr size)).map progDT, ?_⟩
          rw [hchunks, dataTargets_append, sync_dt, dataTargets_progCmds]
          simp [progDT]
        · intro _
          rw [dataTargets_append, sync_dt, dataTargets_progCmds]
          simp
      · rw [if_neg hs] at hunf
        have hle : size - progChunkSrc addr size ≤ fuel := by
          have := chunk_pos addr size h0
          omega
        obtain ⟨r', t', hrec, ⟨rw1, hwb1⟩, hwb2, ⟨rd1, hdt1⟩, hdt2, _⟩ :=
          ih (k + 1) (buf + progChunkSrc addr size) (addr + progChunkSrc addr size)
            (size - progChunkSrc addr size) hle
        rw [hrec] at hunf
        refine ⟨r', progCmds buf addr size ++ (sync (statuses k)).2 ++ t', by
          rw [hunf]; rfl, ?_, ?_, ?_, ?_, ?_⟩
        · refine ⟨rw1, ?_⟩
          rw [hchunks, writeBlocks_append, writeBlocks_append, sync_wb,
            writeBlocks_progCmds]
          simp only [List.map_cons, progWB, List.append_nil]
          rw [hwb1]
          rfl
        · intro hr
          rw [writeBlocks_append, writeBlocks_append, sync_wb, writeBlocks_progCmds,
            hchunks]
          simp only [List.map_cons, progWB, List.append_nil]
          rw [hwb2 hr]
          rfl
        · refine ⟨rd1, ?_⟩
          rw [hchunks, dataTargets_append, dataTargets_append, sync_dt,
            dataTargets_progCmds]
          simp only [List.map_cons, progDT, List.append_nil]
          rw [hdt1]
          rfl
        · intro hr
          rw [dataTargets_append, dataTargets_append, sync_dt, dataTargets_progCmds,
            hchunks]
          simp only [List.map_cons, progDT, List.append_nil]
          rw [hdt2 hr]
          rfl
        · intro _
          rw [dataTargets_append, dataTargets_append, sync_dt, dataTargets_progCmds]
          simp

theorem eraseLoopF_spec (statuses : Nat → Nat → Nat) :
    ∀ fuel k addr n, n ≤ fuel →
      ∃ r t, eraseLoopF statuses fuel k addr (n * HYPERBUS_SE_SIZE) = some (r, t) ∧
        (∃ rest, (eraseSectors addr n).map secDT = dataTargets t ++ rest) ∧
        (r = 0 → dataTargets t = (eraseSectors addr n).map secDT ∧
          t = eraseTraceG statuses k addr n) ∧
        ((∀ j, syncOk (statuses j)) → r = 0) ∧
        (0 < n →
          (dataTargets t).head? = some (addr + HYPERBUS_FILE_SYSTEM_ADDR_OFFSET)) := by
  intro fuel
  induction fuel with
  | zero =>
    intro k addr n hn
    have h0 : n = 0 := by omega
    subst h0
    exact ⟨0, [], by simp [eraseLoopF], ⟨[], by simp [eraseSectors, dataTargets]⟩,
      fun _ => ⟨by simp [eraseSectors, dataTargets], by simp [eraseTraceG]⟩,
      fun _ => rfl, fun h => absurd h (by omega)⟩
  | succ fuel ih =>
    intro k addr n hn
    cases n with
    | zero =>
      exact ⟨0, [], by simp [eraseLoopF], ⟨[], by simp [eraseSectors, dataTargets]⟩,
        fun _ => ⟨by simp [eraseSectors, dataTargets], by simp [eraseTraceG]⟩,
        fun _ => rfl, fun h => absurd h (by omega)⟩
    | succ m =>
      have hsz0 : (m + 1) * HYPERBUS_SE_SIZE ≠ 0 :=
        Nat.mul_ne_zero (Nat.succ_ne_zero m) (by decide)
      have hsub : (m + 1) * HYPERBUS_SE_SIZE - HYPERBUS_SE_SIZE = m * HYPERBUS_SE_SIZE := by
        rw [Nat.succ_mul, Nat.add_sub_cancel]
      have hunf := eraseLoopF_succ statuses fuel k addr ((m + 1) * HYPERBUS_SE_SIZE) hsz0
      rw [hsub] at hunf
      have hsec : eraseSectors addr (m + 1) =
          addr :: eraseSectors (addr + HYPERBUS_SE_SIZE) m := rfl
      by_cases hs : (sync (statuses k)).1 ≠ 0
      · rw [if_pos hs] at hunf
        refine ⟨(sync (statuses k)).1, eraseCmds addr ++ (sync (statuses k)).2, hunf,
          ?_, fun hr => absurd hr hs,
          fun hok => absurd (sync_of_syncOk (statuses k) (hok k)) hs, ?_⟩
        · refine ⟨(eraseSectors (addr + HYPERBUS_SE_SIZE) m).map secDT, ?_⟩
          rw [hsec, dataTargets_append, sync_dt, dataTargets_eraseCmds]
          simp [secDT]
        · intro _
          rw [dataTargets_append, sync_dt, dataTargets_eraseCmds]
          simp
      · rw [if_neg hs] at hunf
        obtain ⟨r', t', hrec, ⟨rd1, hdt1⟩, hzero, hok', _⟩ :=
          ih (k + 1) (addr + HYPERBUS_SE_SIZE) m (by omega)
        rw [hrec] at hunf
        refine ⟨r', eraseCmds addr ++ (sync (statuses k)).2 ++ t', by rw [hunf]; rfl,
          ?_, ?_, fun hok => hok' hok, ?_⟩
        · refine ⟨rd1, ?_⟩
          rw [hsec, dataTargets_append, dataTargets_append, sync_dt,
            dataTargets_eraseCmds]
          simp only [List.map_cons, secDT, List.append_nil]
          rw [hdt1]
          rfl
        · intro hr
          obtain ⟨hdt2, htr2⟩ := hzero hr
          constructor
          · rw [dataTargets_append, dataTargets_append, sync_dt,
              dataTargets_eraseCmds, hsec]
            simp only [List.map_cons, secDT, List.append_nil]
            rw [hdt2]
            rfl
          · rw [htr2]
            rfl
        · intro _
          rw [dataTargets_append, dataTargets_append, sync_dt, dataTargets_eraseCmds]
          simp

theorem eraseTraceG_count (statuses : Nat → Nat → Nat) :
    ∀ n k addr, (eraseTraceG statuses k addr n).countP isEraseCmd = n := by
  intro n
  induction n with
  | zero => intro k addr; simp [eraseTraceG]
  | succ m ih =>
    intro k addr
    have hunf : eraseTraceG statuses k addr (m + 1) =
        eraseCmds addr ++ (sync (statuses k)).2 ++
          eraseTraceG statuses (k + 1) (addr + HYPERBUS_SE_SIZE) m := rfl
    rw [hunf, List.countP_append, List.countP_append, sync_ec, countP_eraseCmds,
      ih (k + 1) (addr + HYPERBUS_SE_SIZE)]
    omega

theorem progChunksF_mem :
    ∀ fuel buf addr size, ∀ c ∈ progChunksF fuel buf addr size,
      0 < c.2.2 ∧ c.2.1 % 512 + c.2.2 ≤ 512 := by
  intro fuel
  induction fuel with
  | zero => intro buf addr size c hc; simp [progChunksF] at hc
  | succ fuel ih =>
    intro buf addr size c hc
    by_cases h0 : size = 0
    · subst h0; simp [progChunksF] at hc
    · rw [progChunksF_succ fuel buf addr size h0] at hc
      rcases List.mem_cons.mp hc with hc | hc
      · subst hc
        have h : addr % 512 < 512 := Nat.mod_lt addr (by norm_num)
        have hm := chunk_eq_min addr size
        refine ⟨chunk_pos addr size h0, ?_⟩
        show addr % 512 + progChunkSrc addr size ≤ 512
        rw [hm]
        omega
      · exact ih _ _ _ c hc

theorem programLoopF_fail (statuses : Nat → Nat → Nat) :
    ∀ fuel k buf addr size j, size ≤ fuel →
      j < (progChunksF fuel buf addr size).length →
      (∀ e, e < j → syncOk (statuses (k + e))) → ¬ syncOk (statuses (k + j)) →
      ∃ t, programLoopF statuses fuel k buf addr size =
          some (BD_ERROR_DEVICE_ERROR, t) ∧
        writeBlocks t = ((progChunksF fuel buf addr size).take (j + 1)).map progWB ∧
        dataTargets t = ((progChunksF fuel buf addr size).take (j + 1)).map progDT := by
  intro fuel
  induction fuel with
  | zero =>
    intro k buf addr size j _ hj _ _
    simp [progChunksF] at hj
  | succ fuel ih =>
    intro k buf addr size j hsz hj hbefore hfail
    by_cases h0 : size = 0
    · subst h0; simp [progChunksF] at hj
    · have hchunks := progChunksF_succ fuel buf addr size h0
      have hunf := programLoopF_succ statuses fuel k buf addr size h0
      cases j with
      | zero =>
        have hsync : (sync (statuses k)).1 = BD_ERROR_DEVICE_ERROR :=
          sync_of_not_syncOk (statuses k) (by simpa using hfail)
        have hne : (sync (statuses k)).1 ≠ 0 := by rw [hsync]; decide
        rw [if_pos hne, hsync] at hunf
        refine ⟨progCmds buf addr size ++ (sync (statuses k)).2, hunf, ?_, ?_⟩
        · rw [writeBlocks_append, sync_wb, writeBlocks_progCmds, hchunks]
          simp [progWB]
        · rw [dataTargets_append, sync_dt, dataTargets_progCmds, hchunks]
          simp [progDT]
      | succ e =>
        have hok0 : syncOk (statuses k) := by simpa using hbefore 0 (Nat.succ_pos e)
        have hs0 : (sync (statuses k)).1 = 0 := sync_of_syncOk (statuses k) hok0
        have hns : ¬ (sync (statuses k)).1 ≠ 0 := by rw [hs0]; simp
        rw [if_neg hns] at hunf
        have hle : size - progChunkSrc addr size ≤ fuel := by
          have := chunk_pos addr size h0
          omega
        have hlen : e < (progChunksF fuel (buf + progChunkSrc addr size)
            (addr + progChunkSrc addr size) (size - progChunkSrc addr size)).length := by
          rw [hchunks] at hj
          simpa using hj
        have hbefore' : ∀ e', e' < e → syncOk (statuses (k + 1 + e')) := by
          intro e' he'
          have hIdx : k + 1 + e' = k + (e' + 1) := by omega
          rw [hIdx]; exact hbefore (e' + 1) (by omega)
        have hfail' : ¬ syncOk (statuses (k + 1 + e)) := by
          have hIdx : k + 1 + e = k + (e + 1) := by omega
          rw [hIdx]; exact hfail
        obtain ⟨t', hrt', hwb', hdt'⟩ :=
          ih (k + 1) (buf + progChunkSrc addr size) (addr + progChunkSrc addr size)
            (size - progChunkSrc addr size) e hle hlen hbefore' hfail'
        rw [hrt'] at hunf
        refine ⟨progCmds buf addr size ++ (sync (statuses k)).2 ++ t', by
          rw [hunf]; rfl, ?_, ?_⟩
        · rw [writeBlocks_append, writeBlocks_append, sync_wb, writeBlocks_progCmds,
            hchunks, List.take_succ_cons, List.map_cons, hwb']
          simp [progWB]
        · rw [dataTargets_append, dataTargets_append, sync_dt, dataTargets_progCmds,
            hchunks, List.take_succ_cons, List.map_cons, hdt']
          simp [progDT]

theorem eraseLoopF_fail (statuses : Nat → Nat → Nat) :
    ∀ fuel k addr n j, n ≤ fuel → j < n →
      (∀ e, e < j → syncOk (statuses (k + e))) → ¬ syncOk (statuses (k + j)) →
      ∃ t, eraseLoopF statuses fuel k addr (n * HYPERBUS_SE_SIZE) =
          some (BD_ERROR_DEVICE_ERROR, t) ∧
        dataTargets t = ((eraseSectors addr n).take (j + 1)).map secDT := by
  intro fuel
  induction fuel with
  | zero =>
    intro k addr n j hn hj _ _
    omega
  | succ fuel ih =>
    intro k addr n j hn hj hbefore hfail
    cases n with
    | zero => omega
    | succ m =>
      have hsz0 : (m + 1) * HYPERBUS_SE_SIZE ≠ 0 :=
        Nat.mul_ne_zero (Nat.succ_ne_zero m) (by decide)
      have hsub : (m + 1) * HYPERBUS_SE_SIZE - HYPERBUS_SE_SIZE = m * HYPERBUS_SE_SIZE := by
        rw [Nat.succ_mul, Nat.add_sub_cancel]
      have hunf := eraseLoopF_succ statuses fuel k addr ((m + 1) * HYPERBUS_SE_SIZE) hsz0
      rw [hsub] at hunf
      have hsec : eraseSectors addr (m + 1) =
          addr :: eraseSectors (addr + HYPERBUS_SE_SIZE) m := rfl
      cases j with
      | zero =>
        have hsync : (sync (statuses k)).1 = BD_ERROR_DEVICE_ERROR :=
          sync_of_not_syncOk (statuses k) (by simpa using hfail)
        have hne : (sync (statuses k)).1 ≠ 0 := by rw [hsync]; decide
        rw [if_pos hne, hsync] at hunf
        refine ⟨eraseCmds addr ++ (sync (statuses k)).2, hunf, ?_⟩
        rw [dataTargets_append, sync_dt, dataTargets_eraseCmds, hsec]
        simp [secDT]
      | succ e =>
        have hok0 : syncOk (statuses k) := by simpa using hbefore 0 (Nat.succ_pos e)
        have hs0 : (sync (statuses k)).1 = 0 := sync_of_syncOk (statuses k) hok0
        have hns : ¬ (sync (statuses k)).1 ≠ 0 := by rw [hs0]; simp
        rw [if_neg hns] at hunf
        have hbefore' : ∀ e', e' < e → syncOk (statuses (k + 1 + e')) := by
          intro e' he'
          have hIdx : k + 1 + e' = k + (e' + 1) := by omega
          rw [hIdx]; exact hbefore (e' + 1) (by omega)
        have hfail' : ¬ syncOk (statuses (k + 1 + e)) := by
          have hIdx : k + 1 + e = k + (e + 1) := by omega
          rw [hIdx]; exact hfail
        obtain ⟨t', hrt', hdt'⟩ :=
          ih (k + 1) (addr + HYPERBUS_SE_SIZE) m e (by omega) (by omega)
            hbefore' hfail'
        rw [hrt'] at hunf
        refine ⟨eraseCmds addr ++ (sync (statuses k)).2 ++ t', by rw [hunf]; rfl, ?_⟩
        rw [dataTargets_append, dataTargets_append, sync_dt, dataTargets_eraseCmds,
          hsec, List.take_succ_cons, List.map_cons, hdt']
        simp [secDT]

/-- C1: for every `program` call (on the asserted domain) with
`size > 0`, the block writes issued by the loop are exactly (a prefix of,
and on success all of) the chunk list built by the spec formula
`chunk = min(size, 512 - addr % 512)` with buffer, address and size each
advanced by the chunk after it is written (`progChunksF`); every chunk is
nonempty and never crosses a 512-byte program-page boundary. -/
theorem program_chunks_C1 (statuses : Nat → Nat → Nat) (buf addr size : Nat)
    (hv : is_valid_program addr size) (_hpos : 0 < size) :
    ∃ r t, program statuses buf addr size = some (r, t) ∧
      (∃ rest, (progChunks buf addr size).map progWB = writeBlocks t ++ rest) ∧
      (r = 0 → writeBlocks t = (progChunks buf addr size).map progWB) ∧
      (∀ c ∈ progChunks buf addr size, 0 < c.2.2 ∧ c.2.1 % 512 + c.2.2 ≤ 512) := by
  obtain ⟨r, t, hrt, hpre, heq, _, _, _⟩ :=
    programLoopF_spec statuses size 0 buf addr size le_rfl
  refine ⟨r, t, ?_, hpre, heq, progChunksF_mem size buf addr size⟩
  rw [program, if_pos hv]
  exact hrt

/-- Witness for C1: programming 2 bytes at address 0 with an always-ready
status oracle. -/
theorem program_chunks_C1_w :
    ∃ r t, program (fun _ _ => 0x80) 0 0 2 = some (r, t) ∧
      (∃ rest, (progChunks 0 0 2).map progWB = writeBlocks t ++ rest) ∧
      (r = 0 → writeBlocks t = (progChunks 0 0 2).map progWB) ∧
      (∀ c ∈ progChunks 0 0 2, 0 < c.2.2 ∧ c.2.1 % 512 + c.2.2 ≤ 512) :=
  program_chunks_C1 (fun _ _ => 0x80) 0 0 2 (by decide) (by decide)

/-- C2: for every `erase` call (on the asserted domain) with `size` a
positive multiple of the 256 KiB sector size, on a transport whose status
polls all succeed, the loop produces exactly the trace of
`size / (256*1024)` per-sector command sequences — each being the five
fixed unlock/command writes (`0xAA` at `0x555<<1`, `0x55` at `0x2AA<<1`,
`0x80` at `0x555<<1`, `0xAA` at `0x555<<1`, `0x55` at `0x2AA<<1`)
followed by the erase-command byte `0x30` at the offset-adjusted sector
address, then that sector's polling — returns `0`, and issues exactly
`size / (256*1024)` erase-command writes, the sector address advancing
and the remaining byte count decreasing by exactly one sector size per
iteration (`eraseTraceG`/`eraseSectors`). -/
theorem erase_sectors_C2 (statuses : Nat → Nat → Nat) (addr size : Nat)
    (hv : is_valid_erase addr size) (_hpos : 0 < size)
    (hok : ∀ k, syncOk (statuses k)) :
    erase statuses addr size =
      some (0, eraseTraceG statuses 0 addr (size / HYPERBUS_SE_SIZE)) ∧
    (eraseTraceG statuses 0 addr (size / HYPERBUS_SE_SIZE)).countP isEraseCmd =
      size / HYPERBUS_SE_SIZE ∧
    dataTargets (eraseTraceG statuses 0 addr (size / HYPERBUS_SE_SIZE)) =
      (eraseSectors addr (size / HYPERBUS_SE_SIZE)).map secDT := by
  have hdvd : HYPERBUS_SE_SIZE ∣ size := Nat.dvd_of_mod_eq_zero hv.2.1
  have hmul : size / HYPERBUS_SE_SIZE * HYPERBUS_SE_SIZE = size :=
    Nat.div_mul_cancel hdvd
  obtain ⟨r, t, hrt, _, hzero, hok', _⟩ :=
    eraseLoopF_spec statuses (size / HYPERBUS_SE_SIZE) 0 addr
      (size / HYPERBUS_SE_SIZE) le_rfl
  have hr0 : r = 0 := hok' hok
  obtain ⟨hdt, htrace⟩ := hzero hr0
  refine ⟨?_, eraseTraceG_count statuses (size / HYPERBUS_SE_SIZE) 0 addr, ?_⟩
  · rw [erase, if_pos hv]
    rw [hr0, htrace, hmul] at hrt
    exact hrt
  · rw [← htrace]
    exact hdt

/-- Witness for C2: erasing one 256 KiB sector at address 0 with an
always-ready status oracle. -/
theorem erase_sectors_C2_w :
    erase (fun _ _ => 0x80) 0 262144 =
      some (0, eraseTraceG (fun _ _ => 0x80) 0 0 (262144 / HYPERBUS_SE_SIZE)) ∧
    (eraseTraceG (fun _ _ => 0x80) 0 0 (262144 / HYPERBUS_SE_SIZE)).countP isEraseCmd =
      262144 / HYPERBUS_SE_SIZE ∧
    dataTargets (eraseTraceG (fun _ _ => 0x80) 0 0 (262144 / HYPERBUS_SE_SIZE)) =
      (eraseSectors 0 (262144 / HYPERBUS_SE_SIZE)).map secDT :=
  erase_sectors_C2 (fun _ _ => 0x80) 0 262144 (by decide) (by decide)
    (fun _ => ⟨0, by decide, show ready 0x80 by decide⟩)

/-- C3: every data-transfer or sector-command transport operation of
`read`, `program` and `erase` targets the physical address equal to the
caller's logical address plus the fixed 256 KiB offset
(`HYPERBUS_FILE_SYSTEM_ADDR_OFFSET = 256*1024`): `read` issues its single
block read at `addr + 256 KiB`, and the data/sector-command targets of
`program`/`erase` are the per-chunk/per-sector logical addresses (the
first being the caller's `addr`, so logical 0 maps to physical 256 KiB)
each shifted by the offset. -/
theorem addr_offset_C3 :
    (∀ addr size, is_valid_read addr size →
      read addr size = some (0,
        [HBOp.readBlock (addr + HYPERBUS_FILE_SYSTEM_ADDR_OFFSET) size])) ∧
    (∀ (statuses : Nat → Nat → Nat) (buf addr size : Nat),
      is_valid_program addr size → 0 < size →
      ∃ r t, program statuses buf addr size = some (r, t) ∧
        (∃ rest, (progChunks buf addr size).map progDT = dataTargets t ++ rest) ∧
        (dataTargets t).head? = some (addr + HYPERBUS_FILE_SYSTEM_ADDR_OFFSET)) ∧
    (∀ (statuses : Nat → Nat → Nat) (addr size : Nat),
      is_valid_erase addr size → 0 < size →
      ∃ r t, erase statuses addr size = some (r, t) ∧
        (∃ rest, (eraseSectors addr (size / HYPERBUS_SE_SIZE)).map secDT =
          dataTargets t ++ rest) ∧
        (dataTargets t).head? = some (addr + HYPERBUS_FILE_SYSTEM_ADDR_OFFSET)) := by
  refine ⟨?_, ?_, ?_⟩
  · intro addr size h
    simp [read, h]
  · intro statuses buf addr size hv hpos
    obtain ⟨r, t, hrt, _, _, hdtpre, _, hhead⟩ :=
      programLoopF_spec statuses size 0 buf addr size le_rfl
    refine ⟨r, t, ?_, hdtpre, hhead hpos⟩
    rw [program, if_pos hv]
    exact hrt
  · intro statuses addr size hv hpos
    have hdvd : HYPERBUS_SE_SIZE ∣ size := Nat.dvd_of_mod_eq_zero hv.2.1
    have hmul : size / HYPERBUS_SE_SIZE * HYPERBUS_SE_SIZE = size :=
      Nat.div_mul_cancel hdvd
    have hn : 0 < size / HYPERBUS_SE_SIZE :=
      Nat.div_pos (Nat.le_of_dvd hpos hdvd) (by decide)
    obtain ⟨r, t, hrt, hdtpre, _, _, hhead⟩ :=
      eraseLoopF_spec statuses (size / HYPERBUS_SE_SIZE) 0 addr
        (size / HYPERBUS_SE_SIZE) le_rfl
    rw [hmul] at hrt
    refine ⟨r, t, ?_, hdtpre, hhead hn⟩
    rw [erase, if_pos hv]
    exact hrt

/-- Witness for C3: the three operations at concrete inputs (read of 2
bytes at logical address 2; program of 2 bytes at logical address 0;
erase of one sector at logical address 0), always-ready status oracle. -/
theorem addr_offset_C3_w :
    (read 2 2 = some (0,
      [HBOp.readBlock (2 + HYPERBUS_FILE_SYSTEM_ADDR_OFFSET) 2])) ∧
    (∃ r t, program (fun _ _ => 0x80) 0 0 2 = some (r, t) ∧
      (∃ rest, (progChunks 0 0 2).map progDT = dataTargets t ++ rest) ∧
      (dataTargets t).head? = some (0 + HYPERBUS_FILE_SYSTEM_ADDR_OFFSET)) ∧
    (∃ r t, erase (fun _ _ => 0x80) 0 262144 = some (r, t) ∧
      (∃ rest, (eraseSectors 0 (262144 / HYPERBUS_SE_SIZE)).map secDT =
        dataTargets t ++ rest) ∧
      (dataTargets t).head? = some (0 + HYPERBUS_FILE_SYSTEM_ADDR_OFFSET)) :=
  ⟨addr_offset_C3.1 2 2 (by decide),
   addr_offset_C3.2.1 (fun _ _ => 0x80) 0 0 2 (by decide) (by decide),
   addr_offset_C3.2.2 (fun _ _ => 0x80) 0 262144 (by decide) (by decide)⟩

/-- C5: if the status poll of the `j`-th chunk of a `program` call (or
the `j`-th sector of an `erase` call) times out, while all earlier polls
succeeded, the operation returns `BD_ERROR_DEVICE_ERROR` with that
chunk's/sector's trace as the last activity: the block writes
(respectively sector-command targets) are exactly those of the first
`j + 1` chunks (sectors) — no transport write for any later chunk or
sector occurs, and no retry or rollback of already-written chunks is
performed. -/
theorem timeout_abort_C5 :
    (∀ (statuses : Nat → Nat → Nat) (buf addr size j : Nat),
      is_valid_program addr size → j < (progChunks buf addr size).length →
      (∀ e, e < j → syncOk (statuses e)) → ¬ syncOk (statuses j) →
      ∃ t, program statuses buf addr size = some (BD_ERROR_DEVICE_ERROR, t) ∧
        writeBlocks t = ((progChunks buf addr size).take (j + 1)).map progWB ∧
        dataTargets t = ((progChunks buf addr size).take (j + 1)).map progDT) ∧
    (∀ (statuses : Nat → Nat → Nat) (addr size j : Nat),
      is_valid_erase addr size → j < size / HYPERBUS_SE_SIZE →
      (∀ e, e < j → syncOk (statuses e)) → ¬ syncOk (statuses j) →
      ∃ t, erase statuses addr size = some (BD_ERROR_DEVICE_ERROR, t) ∧
        dataTargets t =
          ((eraseSectors addr (size / HYPERBUS_SE_SIZE)).take (j + 1)).map secDT) := by
  constructor
  · intro statuses buf addr size j hv hj hb hf
    obtain ⟨t, hrt, hwb, hdt⟩ := programLoopF_fail statuses size 0 buf addr size j
      le_rfl hj (fun e he => by simpa using hb e he) (by simpa using hf)
    refine ⟨t, ?_, hwb, hdt⟩
    rw [program, if_pos hv]
    exact hrt
  · intro statuses addr size j hv hj hb hf
    have hdvd : HYPERBUS_SE_SIZE ∣ size := Nat.dvd_of_mod_eq_zero hv.2.1
    have hmul : size / HYPERBUS_SE_SIZE * HYPERBUS_SE_SIZE = size :=
      Nat.div_mul_cancel hdvd
    obtain ⟨t, hrt, hdt⟩ := eraseLoopF_fail statuses (size / HYPERBUS_SE_SIZE) 0 addr
      (size / HYPERBUS_SE_SIZE) j le_rfl hj (fun e he => by simpa using hb e he)
      (by simpa using hf)
    rw [hmul] at hrt
    refine ⟨t, ?_, hdt⟩
    rw [erase, if_pos hv]
    exact hrt

/-- Witness for C5: status oracle that never reports ready, so the first
chunk's/sector's poll times out (`j = 0`) on a 2-byte program and a
one-sector erase. -/
theorem timeout_abort_C5_w :
    (∃ t, program (fun _ _ => 0) 0 0 2 = some (BD_ERROR_DEVICE_ERROR, t) ∧
      writeBlocks t = ((progChunks 0 0 2).take 1).map progWB ∧
      dataTargets t = ((progChunks 0 0 2).take 1).map progDT) ∧
    (∃ t, erase (fun _ _ => 0) 0 262144 = some (BD_ERROR_DEVICE_ERROR, t) ∧
      dataTargets t =
        ((eraseSectors 0 (262144 / HYPERBUS_SE_SIZE)).take 1).map secDT) :=
  ⟨timeout_abort_C5.1 (fun _ _ => 0) 0 0 2 0 (by decide) (by decide)
      (fun e he => absurd he (Nat.not_lt_zero e))
      (by rintro ⟨i, _, hr⟩; exact absurd hr (show ¬ ready 0 by decide)),
   timeout_abort_C5.2 (fun _ _ => 0) 0 262144 0 (by decide) (by decide)
      (fun e he => absurd he (Nat.not_lt_zero e))
      (by rintro ⟨i, _, hr⟩; exact absurd hr (show ¬ ready 0 by decide))⟩

/-- C9: the `program` loop terminates for every address and size —
`size` iterations of fuel always suffice, since each iteration's chunk is
at least one byte — and the `erase` loop, on a size that is a multiple of
the 256 KiB sector size, terminates within exactly `size / (256*1024)`
iterations. -/
theorem loops_terminate_C9 :
    (∀ (statuses : Nat → Nat → Nat) (k buf addr size : Nat),
      (programLoopF statuses size k buf addr size).isSome = true) ∧
    (∀ (statuses : Nat → Nat → Nat) (k addr n : Nat),
      (eraseLoopF statuses n k addr (n * HYPERBUS_SE_SIZE)).isSome = true) := by
  constructor
  · intro statuses k buf addr size
    obtain ⟨r, t, hrt, _⟩ := programLoopF_spec statuses size k buf addr size le_rfl
    rw [hrt]
    rfl
  · intro statuses k addr n
    obtain ⟨r, t, hrt, _⟩ := eraseLoopF_spec statuses n k addr n le_rfl
    rw [hrt]
    rfl

end HYPERBUSF
